import Mathlib

/-!
Verification development for the bulk image-generation pipeline of the
Bulk-Image-Generator repository.  The definitions below are a shallow
embedding of the TypeScript source:

* `src/components/BulkGenerator.tsx` — the sequential bulk pipeline
  (`handleStartBulkGeneration`), filename sanitization, cooperative
  cancellation, and the ZIP export with filename de-duplication
  (`downloadAllAsZip`);
* `src/services/geminiService.ts` — response extraction
  (`extractImageFromResponse`) and `generateImageWithGemini`.

Spreadsheet cell values are modelled by `JSValue` (string, integer number,
boolean, or missing), with JavaScript truthiness and string coercion made
explicit.  The remote generation call and the user-driven cancellation flag
are external inputs, modelled as oracles indexed by row/iteration number:
`gen i` is the outcome of the i-th generation request, and `abortAt i` is the
value of the abort ref observed at the top of iteration `i` (the flag can only
change while the loop is suspended in an `await`, i.e. between iteration
boundaries).  The environment-supplied `crypto.randomUUID()` id and
`Date.now()` timestamp of a result are omitted: no claim refers to them.
-/

/-- The JavaScript whitespace class (the `\s` regex class and the set trimmed
by `String.prototype.trim`): space, tab, LF, VT, FF, CR, NBSP, and the
Unicode space separators, line/paragraph separators and BOM. -/
def jsWhitespaceChar (c : Char) : Bool :=
  c == ' ' || c == '\t' || c == '\n' || c.toNat == 11 || c.toNat == 12 ||
  c == '\r' || c.toNat == 0xa0 || c.toNat == 0x1680 ||
  (0x2000 ≤ c.toNat && c.toNat ≤ 0x200a) ||
  c.toNat == 0x2028 || c.toNat == 0x2029 || c.toNat == 0x202f ||
  c.toNat == 0x205f || c.toNat == 0x3000 || c.toNat == 0xfeff

/-- Strip leading and trailing JS whitespace from a character list. -/
def trimList (l : List Char) : List Char :=
  ((l.dropWhile jsWhitespaceChar).reverse.dropWhile jsWhitespaceChar).reverse

/-- `String.prototype.trim`. -/
def jsTrim (s : String) : String := String.mk (trimList s.data)

/-- A spreadsheet cell value as produced by `sheet_to_json`: the `ExcelRow`
interface of `src/types.ts` allows `string | number | boolean`; `vMissing` is
an absent key (JS `undefined`).  Numbers are modelled as integers. -/
inductive JSValue where
  | vStr (s : String)
  | vNum (n : Int)
  | vBool (b : Bool)
  | vMissing
  deriving Repr, DecidableEq

/-- JavaScript truthiness of a cell value: `""`, `0`, `false` and
`undefined` are falsy. -/
def jsTruthy : JSValue → Bool
  | .vStr s => !s.isEmpty
  | .vNum n => n != 0
  | .vBool b => b
  | .vMissing => false

/-- JavaScript `String(v)` coercion of a cell value. -/
def jsToString : JSValue → String
  | .vStr s => s
  | .vNum n => toString n
  | .vBool b => if b then "true" else "false"
  | .vMissing => "undefined"

/-- One parsed spreadsheet row: a finite column-name-to-value record. -/
abbrev Row : Type := List (String × JSValue)

/-- JS property access `row[col]`: the first binding of the column name,
`undefined` when absent. -/
def rowGet : Row → String → JSValue
  | [], _ => .vMissing
  | (k, v) :: rest, c => if k = c then v else rowGet rest c

/-- `String(v || fallback)` where `fallback` is a string:
JS `||` short-circuits on the first truthy operand. -/
def jsOrString (v : JSValue) (fallback : String) : String :=
  if jsTruthy v then jsToString v else fallback

/-- The character class kept by the sanitizer regex
`/[^a-z0-9_\-\s]/gi` of BulkGenerator.tsx line 100: ASCII letters (the `i`
flag adds the uppercase range), digits, underscore, hyphen, and the JS
whitespace class `\s`. -/
def regexAllowedChar (c : Char) : Bool :=
  ('a' ≤ c && c ≤ 'z') || ('A' ≤ c && c ≤ 'Z') || ('0' ≤ c && c ≤ '9') ||
  c == '_' || c == '-' || jsWhitespaceChar c

/-- The per-character action of `productName.replace(/[^a-z0-9_\-\s]/gi, '_')`. -/
def replChar (c : Char) : Char :=
  if regexAllowedChar c then c else '_'

/-- `productName.replace(/[^a-z0-9_\-\s]/gi, '_')`. -/
def replaceDisallowed (s : String) : String := String.mk (s.data.map replChar)

/-- `productName.replace(/[^a-z0-9_\-\s]/gi, '_').trim()` — the sanitizer of
BulkGenerator.tsx line 100 without the fallback. -/
def sanitizeFileName (s : String) : String := jsTrim (replaceDisallowed s)

/-- The full line 100:
`productName.replace(/[^a-z0-9_\-\s]/gi, '_').trim() || image-i`. -/
def safeFileName (i : Nat) (productName : String) : String :=
  let s := sanitizeFileName productName
  if s = "" then "image-" ++ toString i else s

example : sanitizeFileName "  a/b?c  " = "a_b_c" := by decide
example : sanitizeFileName "a\tb" = "a\tb" := by decide
example : safeFileName 3 " !! " = "__" := by decide
example : safeFileName 3 " \t " = "image-3" := by decide

/-!
## Remote generation client (`src/services/geminiService.ts`)

The response shape is modelled structurally: every field the code tests for
absence (`!x` / `x || d`) is an `Option`, and string fields distinguish the
empty string (falsy in JS) from a missing field.
-/

/-- `part.inlineData`: base64 payload and declared media type, each possibly
absent. -/
structure InlineData where
  data : Option String
  mimeType : Option String
  deriving Repr, DecidableEq

/-- One content part of a candidate; only `inlineData` is examined. -/
structure RespPart where
  inlineData : Option InlineData
  deriving Repr, DecidableEq

/-- `candidate.content`, with its possibly-absent `parts` array. -/
structure Content where
  parts : Option (List RespPart)
  deriving Repr, DecidableEq

/-- One response candidate. -/
structure Candidate where
  content : Option Content
  deriving Repr, DecidableEq

/-- A `generateContent` response: a possibly-absent candidates array. -/
structure GenResponse where
  candidates : Option (List Candidate)
  deriving Repr, DecidableEq

/-- The `for (const part of content.parts)` loop of
`extractImageFromResponse`: return the data URL for the first part with
truthy `inlineData` and truthy (present, non-empty) `data`, defaulting a
falsy `mimeType` to `image/png`. -/
def firstImagePart : List RespPart → Option String
  | [] => none
  | p :: rest =>
    match p.inlineData with
    | none => firstImagePart rest
    | some d =>
      match d.data with
      | none => firstImagePart rest
      | some s =>
        if s = "" then firstImagePart rest
        else
          some ("data:" ++
            (match d.mimeType with
             | none => "image/png"
             | some m => if m = "" then "image/png" else m) ++
            ";base64," ++ s)

/-- `extractImageFromResponse` of geminiService.ts: `null` when there are no
candidates, no content, or no parts; otherwise scan the first candidate's
parts. -/
def extractImageFromResponse (r : GenResponse) : Option String :=
  match r.candidates with
  | none => none
  | some [] => none
  | some (c :: _) =>
    match c.content with
    | none => none
    | some content =>
      match content.parts with
      | none => none
      | some ps => firstImagePart ps

/-- `generateImageWithGemini`: the transport call is an external input
(`Except` error message or raw response).  A transport failure is rethrown
unchanged; a response without an image part raises the "No image generated"
error. -/
def generateImageWithGemini (transport : Except String GenResponse) :
    Except String String :=
  match transport with
  | .error e => .error e
  | .ok r =>
    match extractImageFromResponse r with
    | some url => .ok url
    | none => .error "No image generated. The model might have returned only text."

/-- Spec-side test (from the spec's words): a part "carries inline binary
image data" when `inlineData` is present with a present, non-empty payload. -/
def isImagePart (p : RespPart) : Bool :=
  match p.inlineData with
  | some d =>
    match d.data with
    | some s => !s.isEmpty
    | none => false
  | none => false

/-- Spec-side payload of an image part: its data with its declared media
type, `image/png` when unspecified. -/
def partPayload (p : RespPart) : String :=
  match p.inlineData with
  | some d =>
    "data:" ++
      (match d.mimeType with
       | none => "image/png"
       | some m => if m = "" then "image/png" else m) ++
      ";base64," ++ (d.data.getD "")
  | none => ""

/-!
## Bulk pipeline (`src/components/BulkGenerator.tsx`)
-/

/-- The run configuration frozen for the duration of a run: the two column
selections and the baseline style prompt. -/
structure Config where
  promptColumn : String
  filenameColumn : String
  baselinePrompt : String
  deriving Repr, DecidableEq

/-- A `GeneratedImage` of `src/types.ts`, without the environment-supplied
`id` (crypto.randomUUID) and `timestamp` (Date.now). -/
structure GeneratedImage where
  url : String
  prompt : String
  fileName : String
  originalName : String
  deriving Repr, DecidableEq

/-- The `ProcessingStatus` of `src/types.ts`. -/
structure ProcessingStatus where
  total : Nat
  completed : Nat
  isProcessing : Bool
  currentAction : Option String
  deriving Repr, DecidableEq

/-- The mutable state threaded through the row loop.  `genCalls` is the
observable trace of generation requests issued (row index and effective
prompt, in order), and `completedTrace` records every value taken by the
`completed` counter; both are ghost observations of the run. -/
structure RunState where
  completed : Nat
  results : List GeneratedImage
  logs : List String
  currentAction : Option String
  genCalls : List (Nat × String)
  completedTrace : List Nat
  deriving Repr, DecidableEq

/-- `addLog`: prepend and keep the 50 most recent entries. -/
def addLog (msg : String) (logs : List String) : List String :=
  (msg :: logs).take 50

/-- `String(row[promptColumn] || '')` (line 80). -/
def coercedPrompt (cfg : Config) (row : Row) : String :=
  jsOrString (rowGet row cfg.promptColumn) ""

/-- ``String(row[filenameColumn] || `image-${i}`)`` (line 81). -/
def coercedName (cfg : Config) (i : Nat) (row : Row) : String :=
  jsOrString (rowGet row cfg.filenameColumn) ("image-" ++ toString i)

/-- The body of one loop iteration (lines 79–117), past the abort check:
skip on an empty trimmed prompt; otherwise compose the effective prompt,
issue the generation call, and on success append a result.  `completed`
advances in every branch. -/
def processRow (cfg : Config) (gen : Nat → Except String String) (i : Nat)
    (row : Row) (st : RunState) : RunState :=
  let productPrompt := coercedPrompt cfg row
  let productName := coercedName cfg i row
  if jsTrim productPrompt = "" then
    { st with
      logs := addLog ("Skipping row " ++ toString (i + 1) ++ ": Empty prompt") st.logs,
      completed := st.completed + 1,
      completedTrace := st.completedTrace ++ [st.completed + 1] }
  else
    let fullPrompt :=
      if cfg.baselinePrompt = "" then productPrompt
      else cfg.baselinePrompt ++ ". " ++ productPrompt
    let st1 := { st with
      currentAction := some ("Generating: " ++ productName),
      genCalls := st.genCalls ++ [(i, fullPrompt)] }
    match gen i with
    | .ok imageUrl =>
      { st1 with
        results := st1.results ++
          [{ url := imageUrl, prompt := fullPrompt,
             fileName := safeFileName i productName, originalName := productName }],
        logs := addLog ("Success: " ++ productName) st1.logs,
        completed := st1.completed + 1,
        completedTrace := st1.completedTrace ++ [st1.completed + 1] }
    | .error e =>
      { st1 with
        logs := addLog ("Failed row " ++ toString (i + 1) ++ " (" ++ productName ++ "): " ++ e) st1.logs,
        completed := st1.completed + 1,
        completedTrace := st1.completedTrace ++ [st1.completed + 1] }

/-- Outcome of the `for` loop: final state, the boundary index at which the
loop exited (equal to the number of row indices consumed from the start), and
whether it exited through the abort `break` rather than by exhaustion. -/
structure LoopOut where
  state : RunState
  exitBoundary : Nat
  wasBreak : Bool
  deriving Repr, DecidableEq

/-- The `for (let i = 0; ...)` loop of lines 73–117, started at boundary `i`
on the remaining rows: check the abort flag at the top of each iteration
(logging "Process stopped by user." and breaking when set), else run the
body and continue. -/
def runFrom (cfg : Config) (gen : Nat → Except String String)
    (abortAt : Nat → Bool) : List Row → Nat → RunState → LoopOut
  | [], i, st => ⟨st, i, false⟩
  | row :: rest, i, st =>
    if abortAt i then
      ⟨{ st with logs := addLog "Process stopped by user." st.logs }, i, true⟩
    else
      runFrom cfg gen abortAt rest (i + 1) (processRow cfg gen i row st)

/-- The externally visible state after a run: the final `ProcessingStatus`,
results, logs, the ghost traces, and the abort ref after the line-120 reset. -/
structure BulkState where
  status : ProcessingStatus
  results : List GeneratedImage
  logs : List String
  genCalls : List (Nat × String)
  completedTrace : List Nat
  abortFlagAfter : Bool
  deriving Repr, DecidableEq

/-- `handleStartBulkGeneration` (lines 65–121): guard, reset of status and
results, the row loop, and the final status update.  The final
`currentAction` reads the abort flag after the loop, i.e. its value at the
exit boundary; line 120 then resets the flag. -/
def handleStartBulkGeneration (cfg : Config) (rows : List Row)
    (gen : Nat → Except String String) (abortAt : Nat → Bool)
    (prior : BulkState) : BulkState :=
  if rows.length = 0 ∨ cfg.promptColumn = "" ∨ cfg.filenameColumn = "" then
    prior
  else
    let st0 : RunState :=
      { completed := 0, results := [],
        logs := addLog "Starting bulk generation..." prior.logs,
        currentAction := none, genCalls := [], completedTrace := [0] }
    let out := runFrom cfg gen abortAt rows 0 st0
    { status :=
        { total := rows.length, completed := out.state.completed,
          isProcessing := false,
          currentAction :=
            some (if abortAt out.exitBoundary then "Stopped" else "Completed!") },
      results := out.state.results, logs := out.state.logs,
      genCalls := out.state.genCalls,
      completedTrace := out.state.completedTrace,
      abortFlagAfter := false }

/-!
## Archive export (`downloadAllAsZip`, BulkGenerator.tsx lines 123–166)
-/

/-- Lookup in the `usedNames` record. -/
def lookupEntry : List (String × Nat) → String → Option Nat
  | [], _ => none
  | (k, v) :: rest, s => if k = s then some v else lookupEntry rest s

/-- Assignment `usedNames[k] = v`: replace the binding or append a fresh one. -/
def setEntry : List (String × Nat) → String → Nat → List (String × Nat)
  | [], k, v => [(k, v)]
  | (k', v') :: rest, k, v =>
    if k' = k then (k, v) :: rest else (k', v') :: setEntry rest k v

/-- Lines 139–144: `if (usedNames[fileName]) { usedNames[fileName]++;
fileName = fileName_counter } else { usedNames[fileName] = 1 }`.  An absent
entry reads as `undefined` (falsy), modelled as 0. -/
def dedupName (used : List (String × Nat)) (f : String) :
    List (String × Nat) × String :=
  let k := (lookupEntry used f).getD 0
  if k ≠ 0 then (setEntry used f (k + 1), f ++ "_" ++ toString (k + 1))
  else (setEntry used f 1, f)

/-- `img.url.split(',')[1]`: the second comma-separated segment of the data
URL, the base64 payload handed to `folder.file` (empty when the URL has no
comma, where JS would read `undefined`). -/
def base64Payload (url : String) : String :=
  String.mk (((url.data.dropWhile (· ≠ ',')).drop 1).takeWhile (· ≠ ','))

/-- The `results.forEach` loop of lines 135–149: one archive entry
`(entryName ++ ".png", base64 payload)` per result, threading `usedNames`. -/
def zipEntriesAux (used : List (String × Nat)) :
    List GeneratedImage → List (String × String)
  | [] => []
  | img :: rest =>
    let step := dedupName used img.fileName
    (step.2 ++ ".png", base64Payload img.url) :: zipEntriesAux step.1 rest

/-- `downloadAllAsZip`: `none` models the early return on an empty result
list; otherwise the ordered entries placed in the archive folder. -/
def downloadAllAsZip (results : List GeneratedImage) :
    Option (List (String × String)) :=
  if results.isEmpty then none else some (zipEntriesAux [] results)

/-- Modelled from the spec's collision-policy words: with `cnt` counting how
many earlier results carried each original name, the first occurrence of a
name is kept as-is and the Nth occurrence (N ≥ 2) becomes `name_N`; the
counter is keyed by the original name. -/
def specDedup (cnt : String → Nat) : List String → List String
  | [] => []
  | f :: rest =>
    (if cnt f = 0 then f else f ++ "_" ++ toString (cnt f + 1)) ::
      specDedup (fun t => if t = f then cnt f + 1 else cnt t) rest

/-!
## Spec-side sanitizer definitions

`specAllowedChar`/`specSanitize` follow the amended spec sentence (letters,
digits, underscore, hyphen, or whitespace are kept); `claimAllowedChar`/
`claimSanitize` follow the original claim's character set `[A-Za-z0-9_- ]`
(space only, no other whitespace).
-/

/-- Per the amended spec sentence: letters, digits, underscore, hyphen, and
whitespace are kept. -/
def specAllowedChar (c : Char) : Bool :=
  c.isAlphanum || c == '_' || c == '-' || jsWhitespaceChar c

/-- Amended-spec sanitizer: replace every other character with an
underscore, then trim surrounding whitespace. -/
def specSanitize (s : String) : String :=
  jsTrim (String.mk (s.data.map (fun c => if specAllowedChar c then c else '_')))

/-- The original claim's character set `[A-Za-z0-9_- ]`: letters, digits,
underscore, hyphen, space. -/
def claimAllowedChar (c : Char) : Bool :=
  c.isAlphanum || c == '_' || c == '-' || c == ' '

/-- The sanitizer as the original claim words it: replace every character
outside `[A-Za-z0-9_- ]` with an underscore, then trim surrounding
whitespace. -/
def claimSanitize (s : String) : String :=
  jsTrim (String.mk (s.data.map (fun c => if claimAllowedChar c then c else '_')))

example : claimSanitize "a\tb" = "a_b" := by decide
example : sanitizeFileName "a\tb" = "a\tb" := by decide
example : specDedup (fun _ => 0) ["a", "a", "a"] = ["a", "a_2", "a_3"] := by decide
example :
    zipEntriesAux [] [⟨"d:,x", "p", "a", "a"⟩, ⟨"d:,y", "p", "a", "a"⟩, ⟨"d:,z", "p", "a", "a"⟩] =
      [("a.png", "x"), ("a_2.png", "y"), ("a_3.png", "z")] := by decide

/-!
## Concrete fixtures for witnesses and counterexamples
-/

/-- A minimal run configuration with no baseline prompt. -/
def cfgW : Config := { promptColumn := "p", filenameColumn := "f", baselinePrompt := "" }

/-- The configuration of the spec's round-trip example. -/
def cfgBaseW : Config :=
  { promptColumn := "p", filenameColumn := "f", baselinePrompt := "studio lighting" }

/-- A generation oracle that always succeeds with a fixed data URL. -/
def genOkW : Nat → Except String String := fun _ => .ok "data:image/png;base64,AAA"

/-- No cancellation request during the run. -/
def noAbort : Nat → Bool := fun _ => false

/-- Cancellation observed from boundary `k` on: the user pressed Stop while
row `k - 1` was in flight. -/
def abortFrom (k : Nat) : Nat → Bool := fun j => decide (k ≤ j)

/-- An idle prior UI state. -/
def priorW : BulkState :=
  { status := { total := 0, completed := 0, isProcessing := false, currentAction := none },
    results := [], logs := [], genCalls := [], completedTrace := [],
    abortFlagAfter := false }

/-- A row with string prompt and filename cells under the fixture columns. -/
def rowW (ps fs : String) : Row := [("p", .vStr ps), ("f", .vStr fs)]

example :
    (handleStartBulkGeneration cfgW [rowW "x" "a", rowW "y" "b"] genOkW
      (abortFrom 1) priorW).status.completed = 1 := by decide
example :
    (handleStartBulkGeneration cfgW [rowW "x" "a", rowW "y" "b"] genOkW
      noAbort priorW).status.completed = 2 := by decide

/-!
## Helper lemmas: trimming and sanitization
-/

theorem dropWhile_dropWhile {α : Type} (p : α → Bool) (l : List α) :
    List.dropWhile p (List.dropWhile p l) = List.dropWhile p l := by
  induction l with
  | nil => rfl
  | cons a t ih =>
    cases h : p a with
    | true => simp [List.dropWhile_cons, h, ih]
    | false => simp [List.dropWhile_cons, h]

theorem head?_dropWhile_false {α : Type} (p : α → Bool) (l : List α) (a : α)
    (h : (List.dropWhile p l).head? = some a) : p a = false := by
  induction l with
  | nil => simp [List.dropWhile] at h
  | cons b t ih =>
    cases hb : p b with
    | true => simp [List.dropWhile_cons, hb] at h; exact ih h
    | false =>
      simp [List.dropWhile_cons, hb] at h
      rw [← h]; exact hb

theorem getLast?_dropWhile {α : Type} (p : α → Bool) (l : List α)
    (h : List.dropWhile p l ≠ []) :
    (List.dropWhile p l).getLast? = l.getLast? := by
  obtain ⟨pre, hpre⟩ := List.dropWhile_suffix (l := l) p
  conv_rhs => rw [← hpre]
  rw [List.getLast?_append_of_ne_nil _ h]

theorem trimList_head_false (l : List Char) (a : Char)
    (h : (trimList l).head? = some a) : jsWhitespaceChar a = false := by
  unfold trimList at h
  rw [List.head?_reverse] at h
  have hne : List.dropWhile jsWhitespaceChar (List.dropWhile jsWhitespaceChar l).reverse ≠ [] := by
    intro hnil; rw [hnil] at h; simp at h
  rw [getLast?_dropWhile _ _ hne, List.getLast?_reverse] at h
  exact head?_dropWhile_false _ _ _ h

theorem dropWhile_trimList (l : List Char) :
    (trimList l).dropWhile jsWhitespaceChar = trimList l := by
  cases h : trimList l with
  | nil => simp
  | cons a t =>
    have hf := trimList_head_false l a (by rw [h]; rfl)
    rw [List.dropWhile_cons, if_neg (by simp [hf])]

theorem dropWhile_reverse_trimList (l : List Char) :
    (trimList l).reverse.dropWhile jsWhitespaceChar = (trimList l).reverse := by
  unfold trimList
  rw [List.reverse_reverse]
  exact dropWhile_dropWhile _ _

theorem trimList_idem (l : List Char) : trimList (trimList l) = trimList l := by
  show (((trimList l).dropWhile jsWhitespaceChar).reverse.dropWhile jsWhitespaceChar).reverse
      = trimList l
  rw [dropWhile_trimList, dropWhile_reverse_trimList, List.reverse_reverse]

theorem replChar_idem (c : Char) : replChar (replChar c) = replChar c := by
  unfold replChar
  cases h : regexAllowedChar c with
  | true => simp [h]
  | false =>
    simp [h]

theorem map_id_of_mem {α : Type} {f : α → α} (l : List α)
    (h : ∀ c ∈ l, f c = c) : l.map f = l := by
  induction l with
  | nil => rfl
  | cons a t ih =>
    simp only [List.map_cons, h a (by simp)]
    rw [ih (fun c hc => h c (by simp [hc]))]

theorem mem_trimList {c : Char} {l : List Char} (h : c ∈ trimList l) : c ∈ l := by
  unfold trimList at h
  rw [List.mem_reverse] at h
  have h1 := (List.dropWhile_sublist (l := (List.dropWhile jsWhitespaceChar l).reverse)
    jsWhitespaceChar).mem h
  rw [List.mem_reverse] at h1
  exact (List.dropWhile_sublist jsWhitespaceChar).mem h1

theorem map_replChar_trimList (l : List Char) :
    (trimList (l.map replChar)).map replChar = trimList (l.map replChar) := by
  apply map_id_of_mem
  intro c hc
  obtain ⟨a, _, rfl⟩ := List.mem_map.mp (mem_trimList hc)
  exact replChar_idem a

/-- Claim C8: filename sanitization (character replacement plus trim,
without the fallback) is idempotent: applying it to its own output yields
the same string. -/
theorem sanitizeFileName_idem (s : String) :
    sanitizeFileName (sanitizeFileName s) = sanitizeFileName s := by
  show String.mk (trimList ((trimList (s.data.map replChar)).map replChar))
      = String.mk (trimList (s.data.map replChar))
  rw [map_replChar_trimList, trimList_idem]

/-!
## Helper lemmas: strings and logs
-/

theorem append_head (a b : String) (c : Char) (r : List Char)
    (h : a.data = c :: r) : (a ++ b).data = c :: (r ++ b.data) := by
  rw [String.data_append, h]; rfl

theorem ne_stop_of_data_cons {s : String} {c : Char} {r : List Char}
    (h : s.data = c :: r) (hc : c ≠ 'P') :
    s ≠ "Process stopped by user." := by
  intro he; subst he
  have hP : ("Process stopped by user." : String).data.head? = some 'P' := by decide
  rw [h] at hP
  simp at hP
  exact hc hP

theorem skip_msg_ne_stop (i : Nat) :
    "Skipping row " ++ toString (i + 1) ++ ": Empty prompt" ≠
      "Process stopped by user." := by
  have h1 : ("Skipping row " : String).data = 'S' :: ("kipping row " : String).data := by decide
  have h2 := append_head _ (toString (i + 1)) _ _ h1
  have h3 := append_head _ ": Empty prompt" _ _ h2
  exact ne_stop_of_data_cons h3 (by decide)

theorem success_msg_ne_stop (n : String) :
    "Success: " ++ n ≠ "Process stopped by user." := by
  have h1 : ("Success: " : String).data = 'S' :: ("uccess: " : String).data := by decide
  exact ne_stop_of_data_cons (append_head _ n _ _ h1) (by decide)

theorem fail_msg_ne_stop (i : Nat) (n e : String) :
    "Failed row " ++ toString (i + 1) ++ " (" ++ n ++ "): " ++ e ≠
      "Process stopped by user." := by
  have h1 : ("Failed row " : String).data = 'F' :: ("ailed row " : String).data := by decide
  have h2 := append_head _ (toString (i + 1)) _ _ h1
  have h3 := append_head _ " (" _ _ h2
  have h4 := append_head _ n _ _ h3
  have h5 := append_head _ "): " _ _ h4
  have h6 := append_head _ e _ _ h5
  exact ne_stop_of_data_cons h6 (by decide)

theorem mem_addLog {m msg : String} {l : List String} (h : m ∈ addLog msg l) :
    m = msg ∨ m ∈ l := by
  unfold addLog at h
  have h2 := List.take_subset 50 (msg :: l) h
  simpa using h2

theorem safeFileName_ne_empty (i : Nat) (s : String) : safeFileName i s ≠ "" := by
  show (if sanitizeFileName s = "" then "image-" ++ toString i else sanitizeFileName s) ≠ ""
  split
  · intro h
    have hd := congrArg String.data h
    rw [String.data_append] at hd
    have h1 : ("image-" : String).data = 'i' :: ("mage-" : String).data := by decide
    rw [h1] at hd
    simp at hd
  · assumption

/-!
## Helper lemmas: one loop iteration
-/

theorem processRow_completed (cfg : Config) (gen : Nat → Except String String)
    (i : Nat) (row : Row) (st : RunState) :
    (processRow cfg gen i row st).completed = st.completed + 1 := by
  simp only [processRow]
  by_cases h : jsTrim (coercedPrompt cfg row) = ""
  · simp [h]
  · rw [if_neg h]
    cases gen i <;> rfl

theorem processRow_trace (cfg : Config) (gen : Nat → Except String String)
    (i : Nat) (row : Row) (st : RunState) :
    (processRow cfg gen i row st).completedTrace =
      st.completedTrace ++ [st.completed + 1] := by
  simp only [processRow]
  by_cases h : jsTrim (coercedPrompt cfg row) = ""
  · simp [h]
  · rw [if_neg h]
    cases gen i <;> rfl

theorem processRow_genCalls (cfg : Config) (gen : Nat → Except String String)
    (i : Nat) (row : Row) (st : RunState) :
    (processRow cfg gen i row st).genCalls = st.genCalls ∨
    ∃ p, (processRow cfg gen i row st).genCalls = st.genCalls ++ [(i, p)] := by
  simp only [processRow]
  by_cases h : jsTrim (coercedPrompt cfg row) = ""
  · rw [if_pos h]
    exact Or.inl rfl
  · rw [if_neg h]
    cases gen i <;> exact Or.inr ⟨_, rfl⟩

theorem processRow_logs (cfg : Config) (gen : Nat → Except String String)
    (i : Nat) (row : Row) (st : RunState) :
    ∃ m, (processRow cfg gen i row st).logs = addLog m st.logs ∧
      m ≠ "Process stopped by user." := by
  simp only [processRow]
  by_cases h : jsTrim (coercedPrompt cfg row) = ""
  · rw [if_pos h]
    exact ⟨_, rfl, skip_msg_ne_stop i⟩
  · rw [if_neg h]
    cases gen i with
    | ok u => exact ⟨_, rfl, success_msg_ne_stop _⟩
    | error e => exact ⟨_, rfl, fail_msg_ne_stop i _ e⟩

theorem processRow_results_sub (cfg : Config) (gen : Nat → Except String String)
    (i : Nat) (row : Row) (st : RunState) :
    ∀ r ∈ (processRow cfg gen i row st).results,
      r ∈ st.results ∨
        (r.fileName = safeFileName i (coercedName cfg i row) ∧
         r.originalName = coercedName cfg i row) := by
  intro r hr
  simp only [processRow] at hr
  by_cases h : jsTrim (coercedPrompt cfg row) = ""
  · rw [if_pos h] at hr
    exact Or.inl hr
  · rw [if_neg h] at hr
    cases hg : gen i with
    | ok u =>
      rw [hg] at hr
      simp only [List.mem_append, List.mem_singleton] at hr
      rcases hr with hm | hm
      · exact Or.inl hm
      · subst hm; exact Or.inr ⟨rfl, rfl⟩
    | error e =>
      rw [hg] at hr
      exact Or.inl hr

/-- The skip branch (lines 83–87) as a state equation: with an
empty-after-trim coerced prompt, the iteration only logs the skip message and
advances `completed`; results, generation calls and `currentAction` are
untouched. -/
theorem processRow_skip (cfg : Config) (gen : Nat → Except String String)
    (i : Nat) (row : Row) (st : RunState)
    (h : jsTrim (coercedPrompt cfg row) = "") :
    processRow cfg gen i row st =
      { st with
        logs := addLog ("Skipping row " ++ toString (i + 1) ++ ": Empty prompt") st.logs,
        completed := st.completed + 1,
        completedTrace := st.completedTrace ++ [st.completed + 1] } := by
  simp only [processRow]
  rw [if_pos h]

/-- The success branch as a state equation. -/
theorem processRow_success (cfg : Config) (gen : Nat → Except String String)
    (i : Nat) (row : Row) (st : RunState) (u : String)
    (h : jsTrim (coercedPrompt cfg row) ≠ "") (hg : gen i = .ok u) :
    processRow cfg gen i row st =
      { st with
        currentAction := some ("Generating: " ++ coercedName cfg i row),
        genCalls := st.genCalls ++
          [(i, if cfg.baselinePrompt = "" then coercedPrompt cfg row
               else cfg.baselinePrompt ++ ". " ++ coercedPrompt cfg row)],
        results := st.results ++
          [{ url := u,
             prompt := if cfg.baselinePrompt = "" then coercedPrompt cfg row
                       else cfg.baselinePrompt ++ ". " ++ coercedPrompt cfg row,
             fileName := safeFileName i (coercedName cfg i row),
             originalName := coercedName cfg i row }],
        logs := addLog ("Success: " ++ coercedName cfg i row) st.logs,
        completed := st.completed + 1,
        completedTrace := st.completedTrace ++ [st.completed + 1] } := by
  simp only [processRow]
  rw [if_neg h, hg]

/-!
## Helper lemmas: the row loop
-/

theorem runFrom_nil (cfg : Config) (gen : Nat → Except String String)
    (ab : Nat → Bool) (i : Nat) (st : RunState) :
    runFrom cfg gen ab [] i st = ⟨st, i, false⟩ := rfl

theorem runFrom_cons_break (cfg : Config) (gen : Nat → Except String String)
    (ab : Nat → Bool) (row : Row) (rest : List Row) (i : Nat) (st : RunState)
    (h : ab i = true) :
    runFrom cfg gen ab (row :: rest) i st =
      ⟨{ st with logs := addLog "Process stopped by user." st.logs }, i, true⟩ := by
  simp only [runFrom]
  rw [if_pos h]

theorem runFrom_cons_go (cfg : Config) (gen : Nat → Except String String)
    (ab : Nat → Bool) (row : Row) (rest : List Row) (i : Nat) (st : RunState)
    (h : ab i = false) :
    runFrom cfg gen ab (row :: rest) i st =
      runFrom cfg gen ab rest (i + 1) (processRow cfg gen i row st) := by
  simp only [runFrom]
  rw [if_neg (by simp [h])]

theorem runFrom_exit_bounds (cfg : Config) (gen : Nat → Except String String)
    (ab : Nat → Bool) (rows : List Row) :
    ∀ i st, i ≤ (runFrom cfg gen ab rows i st).exitBoundary ∧
      (runFrom cfg gen ab rows i st).exitBoundary ≤ i + rows.length := by
  induction rows with
  | nil => intro i st; simp [runFrom_nil]
  | cons row rest ih =>
    intro i st
    cases hab : ab i with
    | true => simp [runFrom_cons_break _ _ _ _ _ _ _ hab]
    | false =>
      rw [runFrom_cons_go _ _ _ _ _ _ _ hab]
      have h := ih (i + 1) (processRow cfg gen i row st)
      constructor
      · omega
      · simp only [List.length_cons]
        omega

theorem runFrom_completed (cfg : Config) (gen : Nat → Except String String)
    (ab : Nat → Bool) (rows : List Row) :
    ∀ i st, (runFrom cfg gen ab rows i st).state.completed =
      st.completed + ((runFrom cfg gen ab rows i st).exitBoundary - i) := by
  induction rows with
  | nil => intro i st; simp [runFrom_nil]
  | cons row rest ih =>
    intro i st
    cases hab : ab i with
    | true => simp [runFrom_cons_break _ _ _ _ _ _ _ hab]
    | false =>
      rw [runFrom_cons_go _ _ _ _ _ _ _ hab]
      have h := ih (i + 1) (processRow cfg gen i row st)
      have hb := runFrom_exit_bounds cfg gen ab rest (i + 1) (processRow cfg gen i row st)
      rw [h, processRow_completed]
      omega

theorem runFrom_trace (cfg : Config) (gen : Nat → Except String String)
    (ab : Nat → Bool) (rows : List Row) :
    ∀ i st, (runFrom cfg gen ab rows i st).state.completedTrace =
      st.completedTrace ++
        List.range' (st.completed + 1) ((runFrom cfg gen ab rows i st).exitBoundary - i) := by
  induction rows with
  | nil => intro i st; simp [runFrom_nil]
  | cons row rest ih =>
    intro i st
    cases hab : ab i with
    | true => simp [runFrom_cons_break _ _ _ _ _ _ _ hab]
    | false =>
      rw [runFrom_cons_go _ _ _ _ _ _ _ hab]
      have h := ih (i + 1) (processRow cfg gen i row st)
      have hb := runFrom_exit_bounds cfg gen ab rest (i + 1) (processRow cfg gen i row st)
      rw [h, processRow_trace, processRow_completed]
      have he : (runFrom cfg gen ab rest (i + 1) (processRow cfg gen i row st)).exitBoundary - i =
          ((runFrom cfg gen ab rest (i + 1) (processRow cfg gen i row st)).exitBoundary - (i + 1)) + 1 := by
        omega
      rw [he, List.range'_succ, List.append_assoc, List.singleton_append]

theorem runFrom_abort_facts (cfg : Config) (gen : Nat → Except String String)
    (ab : Nat → Bool) (rows : List Row) :
    ∀ i st,
      (∀ j, i ≤ j → j < (runFrom cfg gen ab rows i st).exitBoundary → ab j = false) ∧
      ((runFrom cfg gen ab rows i st).wasBreak = true →
        ab (runFrom cfg gen ab rows i st).exitBoundary = true ∧
        (runFrom cfg gen ab rows i st).exitBoundary < i + rows.length) ∧
      ((runFrom cfg gen ab rows i st).wasBreak = false →
        (runFrom cfg gen ab rows i st).exitBoundary = i + rows.length) := by
  induction rows with
  | nil =>
    intro i st
    refine ⟨fun j h1 h2 => by simp [runFrom_nil] at h2; omega, ?_, ?_⟩
    · intro h; simp [runFrom_nil] at h
    · intro _; simp [runFrom_nil]
  | cons row rest ih =>
    intro i st
    cases hab : ab i with
    | true =>
      rw [runFrom_cons_break _ _ _ _ _ _ _ hab]
      refine ⟨fun j h1 h2 => by simp at h2; omega, ?_, ?_⟩
      · intro _; exact ⟨hab, by simp only [List.length_cons]; omega⟩
      · intro h; simp at h
    | false =>
      rw [runFrom_cons_go _ _ _ _ _ _ _ hab]
      obtain ⟨ha, hbrk, hnobrk⟩ := ih (i + 1) (processRow cfg gen i row st)
      have hb := runFrom_exit_bounds cfg gen ab rest (i + 1) (processRow cfg gen i row st)
      refine ⟨?_, ?_, ?_⟩
      · intro j h1 h2
        rcases Nat.eq_or_lt_of_le h1 with rfl | hlt
        · exact hab
        · exact ha j hlt h2
      · intro h
        obtain ⟨h1, h2⟩ := hbrk h
        refine ⟨h1, ?_⟩
        simp only [List.length_cons]
        omega
      · intro h
        rw [hnobrk h]
        simp only [List.length_cons]
        omega

theorem runFrom_genCalls (cfg : Config) (gen : Nat → Except String String)
    (ab : Nat → Bool) (rows : List Row) :
    ∀ i st, ∀ x ∈ (runFrom cfg gen ab rows i st).state.genCalls,
      x ∈ st.genCalls ∨
        (i ≤ x.1 ∧ x.1 < (runFrom cfg gen ab rows i st).exitBoundary) := by
  induction rows with
  | nil => intro i st x hx; exact Or.inl hx
  | cons row rest ih =>
    intro i st x
    cases hab : ab i with
    | true =>
      rw [runFrom_cons_break _ _ _ _ _ _ _ hab]
      exact fun hx => Or.inl hx
    | false =>
      rw [runFrom_cons_go _ _ _ _ _ _ _ hab]
      intro hx
      have hb := runFrom_exit_bounds cfg gen ab rest (i + 1) (processRow cfg gen i row st)
      rcases ih (i + 1) (processRow cfg gen i row st) x hx with hmem | ⟨hge, hlt⟩
      · rcases processRow_genCalls cfg gen i row st with heq | ⟨p, heq⟩
        · rw [heq] at hmem; exact Or.inl hmem
        · rw [heq] at hmem
          simp only [List.mem_append, List.mem_singleton] at hmem
          rcases hmem with hmem | rfl
          · exact Or.inl hmem
          · exact Or.inr ⟨Nat.le_refl i, by omega⟩
      · exact Or.inr ⟨by omega, hlt⟩

theorem runFrom_no_stop_log (cfg : Config) (gen : Nat → Except String String)
    (ab : Nat → Bool) (rows : List Row) :
    ∀ i st, (runFrom cfg gen ab rows i st).wasBreak = false →
      "Process stopped by user." ∉ st.logs →
      "Process stopped by user." ∉ (runFrom cfg gen ab rows i st).state.logs := by
  induction rows with
  | nil => intro i st _ h; exact h
  | cons row rest ih =>
    intro i st
    cases hab : ab i with
    | true =>
      rw [runFrom_cons_break _ _ _ _ _ _ _ hab]
      intro h; simp at h
    | false =>
      rw [runFrom_cons_go _ _ _ _ _ _ _ hab]
      intro hnb hst
      apply ih (i + 1) (processRow cfg gen i row st) hnb
      obtain ⟨m, hm, hne⟩ := processRow_logs cfg gen i row st
      rw [hm]
      intro hmem
      rcases mem_addLog hmem with heq | hmem2
      · exact hne heq.symm
      · exact hst hmem2

theorem runFrom_results_filename (cfg : Config) (gen : Nat → Except String String)
    (ab : Nat → Bool) (rows : List Row) :
    ∀ i st, ∀ r ∈ (runFrom cfg gen ab rows i st).state.results,
      r ∈ st.results ∨ r.fileName ≠ "" := by
  induction rows with
  | nil => intro i st r hr; exact Or.inl hr
  | cons row rest ih =>
    intro i st r
    cases hab : ab i with
    | true =>
      rw [runFrom_cons_break _ _ _ _ _ _ _ hab]
      exact fun hr => Or.inl hr
    | false =>
      rw [runFrom_cons_go _ _ _ _ _ _ _ hab]
      intro hr
      rcases ih (i + 1) (processRow cfg gen i row st) r hr with hmem | hne
      · rcases processRow_results_sub cfg gen i row st r hmem with hmem2 | ⟨hfn, _⟩
        · exact Or.inl hmem2
        · exact Or.inr (hfn ▸ safeFileName_ne_empty i _)
      · exact Or.inr hne

/-- The initial `RunState` set up by lines 68–71. -/
def startState (prior : BulkState) : RunState :=
  { completed := 0, results := [],
    logs := addLog "Starting bulk generation..." prior.logs,
    currentAction := none, genCalls := [], completedTrace := [0] }

theorem handleStart_eq (cfg : Config) (rows : List Row)
    (gen : Nat → Except String String) (ab : Nat → Bool) (prior : BulkState)
    (h1 : rows ≠ []) (h2 : cfg.promptColumn ≠ "") (h3 : cfg.filenameColumn ≠ "") :
    handleStartBulkGeneration cfg rows gen ab prior =
      { status :=
          { total := rows.length,
            completed := (runFrom cfg gen ab rows 0 (startState prior)).state.completed,
            isProcessing := false,
            currentAction :=
              some (if ab (runFrom cfg gen ab rows 0 (startState prior)).exitBoundary
                    then "Stopped" else "Completed!") },
        results := (runFrom cfg gen ab rows 0 (startState prior)).state.results,
        logs := (runFrom cfg gen ab rows 0 (startState prior)).state.logs,
        genCalls := (runFrom cfg gen ab rows 0 (startState prior)).state.genCalls,
        completedTrace := (runFrom cfg gen ab rows 0 (startState prior)).state.completedTrace,
        abortFlagAfter := false } := by
  unfold handleStartBulkGeneration
  rw [if_neg (by
    intro hor
    rcases hor with h | h | h
    · exact h1 (List.length_eq_zero.mp h)
    · exact h2 h
    · exact h3 h)]
  rfl

/-!
## Claim theorems
-/

theorem count_range_self (n : Nat) : List.count n (List.range (n + 1)) = 1 := by
  rw [List.range_succ, List.count_append]
  rw [List.count_eq_zero_of_not_mem (by simp), List.count_singleton_self]

/-- Claim C1, amended: for every run started on a non-empty row list with
both column selections set, `total` equals the row count and the trace of
the `completed` counter is exactly `0, 1, ..., final` — it starts at 0 and
increases by exactly 1 per processed row regardless of success, skip or
failure — `completed` never exceeds `total`, it equals `total` whenever no
cancellation is observed at any iteration boundary, and whenever it reaches
`total` it attains that value exactly once.  (The original claim's
unconditional "strictly reaches `total` exactly once per run" fails for
cancelled runs.) -/
theorem c1_completed_progress (cfg : Config) (rows : List Row)
    (gen : Nat → Except String String) (ab : Nat → Bool) (prior : BulkState)
    (h1 : rows ≠ []) (h2 : cfg.promptColumn ≠ "") (h3 : cfg.filenameColumn ≠ "") :
    (handleStartBulkGeneration cfg rows gen ab prior).status.total = rows.length ∧
    (handleStartBulkGeneration cfg rows gen ab prior).completedTrace =
      List.range ((handleStartBulkGeneration cfg rows gen ab prior).status.completed + 1) ∧
    (handleStartBulkGeneration cfg rows gen ab prior).status.completed ≤
      (handleStartBulkGeneration cfg rows gen ab prior).status.total ∧
    ((∀ j, j < rows.length → ab j = false) →
      (handleStartBulkGeneration cfg rows gen ab prior).status.completed = rows.length) ∧
    ((handleStartBulkGeneration cfg rows gen ab prior).status.completed =
        (handleStartBulkGeneration cfg rows gen ab prior).status.total →
      List.count (handleStartBulkGeneration cfg rows gen ab prior).status.total
        (handleStartBulkGeneration cfg rows gen ab prior).completedTrace = 1) := by
  rw [handleStart_eq cfg rows gen ab prior h1 h2 h3]
  have hc := runFrom_completed cfg gen ab rows 0 (startState prior)
  have htr := runFrom_trace cfg gen ab rows 0 (startState prior)
  have hb := runFrom_exit_bounds cfg gen ab rows 0 (startState prior)
  have hfacts := runFrom_abort_facts cfg gen ab rows 0 (startState prior)
  have hsc : (startState prior).completed = 0 := rfl
  have hst : (startState prior).completedTrace = [0] := rfl
  rw [hsc, Nat.zero_add, Nat.sub_zero] at hc
  rw [hst, hsc, Nat.zero_add, Nat.sub_zero] at htr
  dsimp only
  refine ⟨rfl, ?_, ?_, ?_, ?_⟩
  · rw [htr, hc]
    simp [List.range_eq_range', List.range'_succ]
  · rw [hc]
    omega
  · intro hall
    rw [hc]
    cases hbrk : (runFrom cfg gen ab rows 0 (startState prior)).wasBreak with
    | true =>
      obtain ⟨habt, hlt⟩ := hfacts.2.1 hbrk
      rw [hall _ (by omega)] at habt
      exact absurd habt (by simp)
    | false =>
      have := hfacts.2.2 hbrk
      omega
  · intro heq
    rw [hc] at heq
    have hE : (runFrom cfg gen ab rows 0 (startState prior)).exitBoundary = rows.length := heq
    rw [htr, hE]
    have hR : [0] ++ List.range' 1 rows.length = List.range (rows.length + 1) := by
      simp [List.range_eq_range', List.range'_succ]
    rw [hR]
    exact count_range_self rows.length

/-- Witness for C1: a successful 1-row run with no cancellation has
`total = 1` and finishes with `completed = 1`. -/
theorem c1_completed_progress_witness :
    (handleStartBulkGeneration cfgW [rowW "x" "a"] genOkW noAbort priorW).status.total = 1 ∧
    (handleStartBulkGeneration cfgW [rowW "x" "a"] genOkW noAbort priorW).status.completed = 1 := by
  have h := c1_completed_progress cfgW [rowW "x" "a"] genOkW noAbort priorW
    (by decide) (by decide) (by decide)
  exact ⟨h.1, h.2.2.2.1 (fun j _ => rfl)⟩

/-- Counterexample to C1 as stated: in a 2-row run with every generation
succeeding but cancellation observed from boundary 1 on (the user pressed
Stop while row 0 was in flight), the final `completed` is 1 while `total`
is 2 — `completed` never reaches `total` in that run. -/
theorem c1_counterexample :
    ¬((handleStartBulkGeneration cfgW [rowW "x" "a", rowW "y" "b"] genOkW
        (abortFrom 1) priorW).status.completed =
      (handleStartBulkGeneration cfgW [rowW "x" "a", rowW "y" "b"] genOkW
        (abortFrom 1) priorW).status.total) := by decide

/-- Claim C4: if cancellation is requested while row `i` is being processed
(the abort flag reads false at every iteration boundary up to `i` and true at
every later boundary), then rows 0 through `i` complete normally
(`completed` ends at `i + 1`), no row with index greater than `i` is ever
sent to generation, the final `currentAction` is "Stopped" and
`isProcessing` is false.  That the flag is consulted only at the top of each
iteration is embodied in the loop model `runFrom`, which row `i` passes
before the flag is raised. -/
theorem c4_cancellation (cfg : Config) (rows : List Row)
    (gen : Nat → Except String String) (ab : Nat → Bool) (prior : BulkState)
    (i : Nat) (hi : i < rows.length)
    (h2 : cfg.promptColumn ≠ "") (h3 : cfg.filenameColumn ≠ "")
    (hab : ∀ j, ab j = true ↔ i < j) :
    (handleStartBulkGeneration cfg rows gen ab prior).status.completed = i + 1 ∧
    (∀ x ∈ (handleStartBulkGeneration cfg rows gen ab prior).genCalls, x.1 ≤ i) ∧
    (handleStartBulkGeneration cfg rows gen ab prior).status.currentAction = some "Stopped" ∧
    (handleStartBulkGeneration cfg rows gen ab prior).status.isProcessing = false := by
  have h1 : rows ≠ [] := by intro h; rw [h] at hi; simp at hi
  rw [handleStart_eq cfg rows gen ab prior h1 h2 h3]
  have hc := runFrom_completed cfg gen ab rows 0 (startState prior)
  have hb := runFrom_exit_bounds cfg gen ab rows 0 (startState prior)
  have hfacts := runFrom_abort_facts cfg gen ab rows 0 (startState prior)
  have hgc := runFrom_genCalls cfg gen ab rows 0 (startState prior)
  have hsc : (startState prior).completed = 0 := rfl
  rw [hsc, Nat.zero_add, Nat.sub_zero] at hc
  have hle : (runFrom cfg gen ab rows 0 (startState prior)).exitBoundary ≤ i + 1 := by
    by_contra hgt
    push_neg at hgt
    have hf := hfacts.1 (i + 1) (by omega) (by omega)
    have ht := (hab (i + 1)).mpr (by omega)
    rw [ht] at hf
    exact absurd hf (by simp)
  have hE : (runFrom cfg gen ab rows 0 (startState prior)).exitBoundary = i + 1 := by
    cases hbrk : (runFrom cfg gen ab rows 0 (startState prior)).wasBreak with
    | true =>
      obtain ⟨habt, _⟩ := hfacts.2.1 hbrk
      have := (hab _).mp habt
      omega
    | false =>
      have := hfacts.2.2 hbrk
      omega
  refine ⟨?_, ?_, ?_, rfl⟩
  · dsimp only
    rw [hc, hE]
  · dsimp only
    intro x hx
    rcases hgc x hx with hmem | ⟨_, hlt⟩
    · have hg0 : (startState prior).genCalls = [] := rfl
      rw [hg0] at hmem
      simp at hmem
    · rw [hE] at hlt
      omega
  · dsimp only
    rw [hE, if_pos ((hab (i + 1)).mpr (by omega))]

/-- Witness for C4: in a 2-row run where the user pressed Stop while row 0
was in flight, `completed` ends at 1, no generation call targets a row past
row 0, and the final action is "Stopped". -/
theorem c4_cancellation_witness :
    (handleStartBulkGeneration cfgW [rowW "x" "a", rowW "y" "b"] genOkW
      (abortFrom 1) priorW).status.completed = 1 ∧
    (handleStartBulkGeneration cfgW [rowW "x" "a", rowW "y" "b"] genOkW
      (abortFrom 1) priorW).status.currentAction = some "Stopped" := by
  have h := c4_cancellation cfgW [rowW "x" "a", rowW "y" "b"] genOkW
    (abortFrom 1) priorW 0 (by decide) (by decide) (by decide)
    (fun j => by simp [abortFrom]; omega)
  exact ⟨h.1, h.2.2.1⟩

/-- Claim C10: if cancellation is requested while the final row is in flight
(the flag reads false at every boundary below the row count and true from
the row count on), the loop exits by exhaustion: every row is processed,
`completed` equals `total`, the "Process stopped by user." log entry is
never written, yet the final `currentAction` is "Stopped", `isProcessing`
is false, and the abort flag is reset afterwards. -/
theorem c10_cancel_during_final_row (cfg : Config) (rows : List Row)
    (gen : Nat → Except String String) (ab : Nat → Bool) (prior : BulkState)
    (h1 : rows ≠ []) (h2 : cfg.promptColumn ≠ "") (h3 : cfg.filenameColumn ≠ "")
    (hprior : prior.logs = [])
    (hab : ∀ j, ab j = true ↔ rows.length ≤ j) :
    (handleStartBulkGeneration cfg rows gen ab prior).status.completed = rows.length ∧
    (handleStartBulkGeneration cfg rows gen ab prior).status.total = rows.length ∧
    "Process stopped by user." ∉ (handleStartBulkGeneration cfg rows gen ab prior).logs ∧
    (handleStartBulkGeneration cfg rows gen ab prior).status.currentAction = some "Stopped" ∧
    (handleStartBulkGeneration cfg rows gen ab prior).status.isProcessing = false ∧
    (handleStartBulkGeneration cfg rows gen ab prior).abortFlagAfter = false := by
  rw [handleStart_eq cfg rows gen ab prior h1 h2 h3]
  have hc := runFrom_completed cfg gen ab rows 0 (startState prior)
  have hfacts := runFrom_abort_facts cfg gen ab rows 0 (startState prior)
  have hsc : (startState prior).completed = 0 := rfl
  rw [hsc, Nat.zero_add, Nat.sub_zero] at hc
  have hnb : (runFrom cfg gen ab rows 0 (startState prior)).wasBreak = false := by
    cases hbrk : (runFrom cfg gen ab rows 0 (startState prior)).wasBreak with
    | false => rfl
    | true =>
      exfalso
      obtain ⟨habt, hlt⟩ := hfacts.2.1 hbrk
      have := (hab _).mp habt
      omega
  have hE : (runFrom cfg gen ab rows 0 (startState prior)).exitBoundary = rows.length := by
    have := hfacts.2.2 hnb
    omega
  have hlogs0 : (startState prior).logs = ["Starting bulk generation..."] := by
    show addLog "Starting bulk generation..." prior.logs = _
    rw [hprior]
    rfl
  refine ⟨?_, rfl, ?_, ?_, rfl, rfl⟩
  · dsimp only
    rw [hc, hE]
  · dsimp only
    apply runFrom_no_stop_log cfg gen ab rows 0 (startState prior) hnb
    rw [hlogs0]
    decide
  · dsimp only
    rw [hE, if_pos ((hab rows.length).mpr (Nat.le_refl _))]

/-- Witness for C10: a 1-row run with Stop pressed during that row ends with
`completed = total = 1`, no stop log entry, and action "Stopped". -/
theorem c10_cancel_during_final_row_witness :
    (handleStartBulkGeneration cfgW [rowW "x" "a"] genOkW (abortFrom 1)
      priorW).status.completed = 1 ∧
    "Process stopped by user." ∉
      (handleStartBulkGeneration cfgW [rowW "x" "a"] genOkW (abortFrom 1) priorW).logs ∧
    (handleStartBulkGeneration cfgW [rowW "x" "a"] genOkW (abortFrom 1)
      priorW).status.currentAction = some "Stopped" := by
  have h := c10_cancel_during_final_row cfgW [rowW "x" "a"] genOkW (abortFrom 1) priorW
    (by decide) (by decide) (by decide) rfl (fun j => by simp [abortFrom])
  exact ⟨h.1, h.2.2.1, h.2.2.2.1⟩

/-- An empty mid-run state for row-level witnesses. -/
def stW : RunState :=
  { completed := 0, results := [], logs := [], currentAction := none,
    genCalls := [], completedTrace := [0] }

/-- Claim C5: for every row whose configured prompt value coerces to an
empty or whitespace-only string, no generation call is issued and no result
is appended, yet `completed` still advances by 1 and the skip message is
logged. -/
theorem c5_skip_empty_prompt (cfg : Config) (gen : Nat → Except String String)
    (i : Nat) (row : Row) (st : RunState)
    (h : jsTrim (coercedPrompt cfg row) = "") :
    (processRow cfg gen i row st).genCalls = st.genCalls ∧
    (processRow cfg gen i row st).results = st.results ∧
    (processRow cfg gen i row st).completed = st.completed + 1 ∧
    (processRow cfg gen i row st).logs =
      addLog ("Skipping row " ++ toString (i + 1) ++ ": Empty prompt") st.logs := by
  rw [processRow_skip cfg gen i row st h]
  exact ⟨rfl, rfl, rfl, rfl⟩

/-- Witness for C5: a whitespace-only prompt cell is skipped — no result,
counter advanced. -/
theorem c5_skip_empty_prompt_witness :
    (processRow cfgW genOkW 0 (rowW "  " "a") stW).results = [] ∧
    (processRow cfgW genOkW 0 (rowW "  " "a") stW).completed = 1 := by
  have h := c5_skip_empty_prompt cfgW genOkW 0 (rowW "  " "a") stW (by decide)
  exact ⟨h.2.1.trans rfl, h.2.2.1.trans rfl⟩

theorem processRow_genCalls_eq (cfg : Config) (gen : Nat → Except String String)
    (i : Nat) (row : Row) (st : RunState)
    (h : jsTrim (coercedPrompt cfg row) ≠ "") :
    (processRow cfg gen i row st).genCalls =
      st.genCalls ++
        [(i, if cfg.baselinePrompt = "" then coercedPrompt cfg row
             else cfg.baselinePrompt ++ ". " ++ coercedPrompt cfg row)] := by
  simp only [processRow]
  rw [if_neg h]
  cases gen i <;> rfl

/-- Claim C6: the effective prompt sent for a non-skipped row is
`baseline ++ ". " ++ rowPrompt` when the baseline prompt is non-empty and
the row prompt unmodified when it is empty; composing baseline
"studio lighting" with row prompt "red sneaker" yields exactly
"studio lighting. red sneaker". -/
theorem c6_prompt_composition (cfg : Config) (gen : Nat → Except String String)
    (i : Nat) (row : Row) (st : RunState)
    (h : jsTrim (coercedPrompt cfg row) ≠ "") :
    (cfg.baselinePrompt ≠ "" →
      (processRow cfg gen i row st).genCalls =
        st.genCalls ++ [(i, cfg.baselinePrompt ++ ". " ++ coercedPrompt cfg row)]) ∧
    (cfg.baselinePrompt = "" →
      (processRow cfg gen i row st).genCalls =
        st.genCalls ++ [(i, coercedPrompt cfg row)]) ∧
    (processRow cfgBaseW gen i (rowW "red sneaker" "a") st).genCalls =
      st.genCalls ++ [(i, "studio lighting. red sneaker")] := by
  refine ⟨?_, ?_, ?_⟩
  · intro hb
    rw [processRow_genCalls_eq cfg gen i row st h, if_neg hb]
  · intro hb
    rw [processRow_genCalls_eq cfg gen i row st h, if_pos hb]
  · rw [processRow_genCalls_eq cfgBaseW gen i (rowW "red sneaker" "a") st (by decide)]
    rw [if_neg (by decide)]
    have hs : cfgBaseW.baselinePrompt ++ ". " ++ coercedPrompt cfgBaseW (rowW "red sneaker" "a") =
        "studio lighting. red sneaker" := by decide
    rw [hs]

/-- Witness for C6: the round-trip example evaluated on the pipeline. -/
theorem c6_prompt_composition_witness :
    (processRow cfgBaseW genOkW 0 (rowW "red sneaker" "a") stW).genCalls =
      [(0, "studio lighting. red sneaker")] := by
  rw [(c6_prompt_composition cfgBaseW genOkW 0 (rowW "red sneaker" "a") stW
    (by decide)).2.2]
  rfl

/-- Claim C9: a prompt cell holding the number 0 or the boolean false
coerces to the empty string, so the row is skipped exactly as an empty
prompt; and a falsy filename cell (missing, empty, 0, or false) makes the
fallback `image-<i>` the product name, which is sanitized into `fileName`
and recorded verbatim as the result's `originalName` in place of the raw
cell value. -/
theorem c9_falsy_cells (cfg : Config) (gen : Nat → Except String String)
    (i : Nat) (row : Row) (st : RunState) (u : String) :
    ((rowGet row cfg.promptColumn = .vNum 0 ∨ rowGet row cfg.promptColumn = .vBool false) →
      coercedPrompt cfg row = "" ∧
      processRow cfg gen i row st =
        { st with
          logs := addLog ("Skipping row " ++ toString (i + 1) ++ ": Empty prompt") st.logs,
          completed := st.completed + 1,
          completedTrace := st.completedTrace ++ [st.completed + 1] }) ∧
    (jsTruthy (rowGet row cfg.filenameColumn) = false →
      jsTrim (coercedPrompt cfg row) ≠ "" → gen i = .ok u →
      coercedName cfg i row = "image-" ++ toString i ∧
      (processRow cfg gen i row st).results = st.results ++
        [{ url := u,
           prompt := if cfg.baselinePrompt = "" then coercedPrompt cfg row
                     else cfg.baselinePrompt ++ ". " ++ coercedPrompt cfg row,
           fileName := safeFileName i ("image-" ++ toString i),
           originalName := "image-" ++ toString i }]) := by
  constructor
  · intro hv
    have hcp : coercedPrompt cfg row = "" := by
      rcases hv with hh | hh <;> simp [coercedPrompt, jsOrString, hh, jsTruthy]
    refine ⟨hcp, ?_⟩
    apply processRow_skip
    rw [hcp]
    decide
  · intro hf hne hg
    have hn : coercedName cfg i row = "image-" ++ toString i := by
      simp [coercedName, jsOrString, hf]
    refine ⟨hn, ?_⟩
    rw [processRow_success cfg gen i row st u hne hg]
    dsimp only
    rw [hn]

/-- Witness for C9: a `0` prompt cell is skipped (no result); a row with a
missing filename cell produces a result named `image-0`. -/
theorem c9_falsy_cells_witness :
    (processRow cfgW genOkW 0 [("p", JSValue.vNum 0), ("f", JSValue.vStr "x")] stW).results = [] ∧
    (processRow cfgW genOkW 0 [("p", JSValue.vStr "mug")] stW).results =
      [{ url := "data:image/png;base64,AAA", prompt := "mug",
         fileName := "image-0", originalName := "image-0" }] := by
  constructor
  · have h := (c9_falsy_cells cfgW genOkW 0 [("p", JSValue.vNum 0), ("f", JSValue.vStr "x")]
      stW "u").1 (Or.inl (by decide))
    rw [h.2]
    rfl
  · have h := (c9_falsy_cells cfgW genOkW 0 [("p", JSValue.vStr "mug")] stW
      "data:image/png;base64,AAA").2 (by decide) (by decide) rfl
    rw [h.2]
    decide

/-!
## Helper lemmas: archive de-duplication
-/

theorem lookupEntry_setEntry (used : List (String × Nat)) (k : String) (v : Nat)
    (s : String) :
    lookupEntry (setEntry used k v) s =
      if k = s then some v else lookupEntry used s := by
  induction used with
  | nil =>
    by_cases hs : k = s <;> simp [setEntry, lookupEntry, hs]
  | cons kv rest ih =>
    obtain ⟨k', v'⟩ := kv
    by_cases h : k' = k
    · subst h
      by_cases hs : k' = s <;> simp [setEntry, lookupEntry, hs]
    · by_cases hs : k' = s
      · subst hs
        have hk : ¬k = k' := fun he => h he.symm
        simp [setEntry, lookupEntry, h, hk]
      · simp [setEntry, lookupEntry, h, hs, ih]

/-- The `usedNames` record realizes the per-name occurrence counter `cnt`. -/
def Represents (used : List (String × Nat)) (cnt : String → Nat) : Prop :=
  ∀ s, (lookupEntry used s).getD 0 = cnt s

theorem represents_set (used : List (String × Nat)) (cnt : String → Nat)
    (h : Represents used cnt) (f : String) :
    Represents (setEntry used f (cnt f + 1))
      (fun t => if t = f then cnt f + 1 else cnt t) := by
  intro s
  rw [lookupEntry_setEntry]
  by_cases hs : f = s
  · subst hs; simp
  · have hs2 : ¬s = f := fun he => hs he.symm
    simp only [if_neg hs, if_neg hs2]
    exact h s

theorem zipEntriesAux_names (imgs : List GeneratedImage) :
    ∀ (used : List (String × Nat)) (cnt : String → Nat), Represents used cnt →
      (zipEntriesAux used imgs).map Prod.fst =
        (specDedup cnt (imgs.map GeneratedImage.fileName)).map (fun n => n ++ ".png") := by
  induction imgs with
  | nil => intro used cnt _; rfl
  | cons img rest ih =>
    intro used cnt h
    have hk : (lookupEntry used img.fileName).getD 0 = cnt img.fileName := h _
    by_cases hz : cnt img.fileName = 0
    · have hd : dedupName used img.fileName =
          (setEntry used img.fileName (cnt img.fileName + 1), img.fileName) := by
        simp [dedupName, hk, hz]
      simp only [zipEntriesAux, hd, List.map_cons, specDedup, if_pos hz]
      rw [ih _ _ (represents_set used cnt h img.fileName)]
    · have hd : dedupName used img.fileName =
          (setEntry used img.fileName (cnt img.fileName + 1),
           img.fileName ++ "_" ++ toString (cnt img.fileName + 1)) := by
        simp [dedupName, hk, hz]
      simp only [zipEntriesAux, hd, List.map_cons, specDedup, if_neg hz]
      rw [ih _ _ (represents_set used cnt h img.fileName)]

/-- Claim C2: archive export de-duplicates filenames in processing order
with a per-name occurrence counter keyed by the original filename — the
first occurrence of a name is kept as-is and the Nth occurrence (N ≥ 2)
becomes `name_N` — and for results all named "a" the exported entries are
a.png, a_2.png, a_3.png. -/
theorem c2_zip_dedup (results : List GeneratedImage) (hne : results ≠ []) :
    (∃ entries, downloadAllAsZip results = some entries ∧
      entries.map Prod.fst =
        (specDedup (fun _ => 0) (results.map GeneratedImage.fileName)).map
          (fun n => n ++ ".png")) ∧
    specDedup (fun _ => 0) ["a", "a", "a"] = ["a", "a_2", "a_3"] := by
  constructor
  · refine ⟨zipEntriesAux [] results, ?_, ?_⟩
    · unfold downloadAllAsZip
      rw [if_neg (by simp [hne])]
    · exact zipEntriesAux_names results [] (fun _ => 0) (fun _ => rfl)
  · decide

/-- Witness for C2: three results named "a" export as a.png, a_2.png,
a_3.png. -/
theorem c2_zip_dedup_witness :
    (downloadAllAsZip
      [{ url := "d:,x", prompt := "p", fileName := "a", originalName := "a" },
       { url := "d:,y", prompt := "p", fileName := "a", originalName := "a" },
       { url := "d:,z", prompt := "p", fileName := "a", originalName := "a" }]).map
        (fun es => es.map Prod.fst) = some ["a.png", "a_2.png", "a_3.png"] := by
  obtain ⟨⟨entries, he, hn⟩, _⟩ := c2_zip_dedup
    [{ url := "d:,x", prompt := "p", fileName := "a", originalName := "a" },
     { url := "d:,y", prompt := "p", fileName := "a", originalName := "a" },
     { url := "d:,z", prompt := "p", fileName := "a", originalName := "a" }]
    (by decide)
  rw [he, Option.map_some']
  rw [hn]
  decide

theorem regexAllowed_eq_specAllowed (c : Char) :
    regexAllowedChar c = specAllowedChar c := by
  unfold regexAllowedChar specAllowedChar Char.isAlphanum Char.isAlpha
  simp only [Bool.or_assoc]
  rw [Bool.or_left_comm]
  rfl

theorem sanitizeFileName_eq_specSanitize (s : String) :
    sanitizeFileName s = specSanitize s := by
  show String.mk (trimList (s.data.map replChar)) =
    String.mk (trimList (s.data.map (fun c => if specAllowedChar c then c else '_')))
  have hmap : s.data.map replChar =
      s.data.map (fun c => if specAllowedChar c then c else '_') :=
    List.map_congr_left (fun a _ => by
      unfold replChar
      rw [regexAllowed_eq_specAllowed])
  rw [hmap]

/-- Claim C3, amended: the sanitized filename equals the coerced name value
with every character outside letters, digits, underscore, hyphen, and
whitespace replaced by '_', then surrounding whitespace trimmed, falling
back to `image-<index>` when the result is empty; consequently every
Generated Image Result's fileName is non-empty.  (The original claim's
character set `[A-Za-z0-9_- ]` admits only the space character, but the
code's regex class `[^a-z0-9_\-\s]` with the `\s` whitespace class keeps
every whitespace character, so an interior tab survives sanitization — see
the counterexample.) -/
theorem c3_sanitization (cfg : Config) (rows : List Row)
    (gen : Nat → Except String String) (ab : Nat → Bool) (prior : BulkState)
    (i : Nat) (s : String)
    (h1 : rows ≠ []) (h2 : cfg.promptColumn ≠ "") (h3 : cfg.filenameColumn ≠ "") :
    safeFileName i s =
      (if specSanitize s = "" then "image-" ++ toString i else specSanitize s) ∧
    safeFileName i s ≠ "" ∧
    ∀ r ∈ (handleStartBulkGeneration cfg rows gen ab prior).results, r.fileName ≠ "" := by
  refine ⟨?_, safeFileName_ne_empty i s, ?_⟩
  · show (if sanitizeFileName s = "" then "image-" ++ toString i else sanitizeFileName s) = _
    rw [sanitizeFileName_eq_specSanitize]
  · intro r hr
    rw [handleStart_eq cfg rows gen ab prior h1 h2 h3] at hr
    dsimp only at hr
    rcases runFrom_results_filename cfg gen ab rows 0 (startState prior) r hr with hmem | hne
    · have h0 : (startState prior).results = [] := rfl
      rw [h0] at hmem
      simp at hmem
    · exact hne

/-- Witness for C3 (amended): a name with an interior slash sanitizes to an
underscore-joined name, and a run's only result carries a non-empty
fileName. -/
theorem c3_sanitization_witness :
    safeFileName 0 "a/b" = "a_b" ∧
    ∀ r ∈ (handleStartBulkGeneration cfgW [rowW "mug" "a/b"] genOkW noAbort
      priorW).results, r.fileName ≠ "" := by
  have h := c3_sanitization cfgW [rowW "mug" "a/b"] genOkW noAbort priorW 0 "a/b"
    (by decide) (by decide) (by decide)
  refine ⟨?_, h.2.2⟩
  rw [h.1]
  decide

/-- Counterexample to C3 as stated: for a row whose filename cell is
"a<TAB>b", the run's result keeps the interior tab (the regex class keeps
all whitespace), while the claim's character set `[A-Za-z0-9_- ]` would
replace the tab with an underscore, yielding "a_b". -/
theorem c3_counterexample :
    (handleStartBulkGeneration cfgW [rowW "mug" "a\tb"] genOkW noAbort
      priorW).results.map GeneratedImage.fileName = ["a\tb"] ∧
    claimSanitize "a\tb" = "a_b" ∧
    ("a\tb" : String) ≠ "a_b" := by decide

/-- Claim C7: response extraction examines only the first candidate's parts
in order, returning the payload of the first part carrying inline binary
image data with its declared media type (or image/png when unspecified),
yielding nothing when there are no candidates or no parts; the generate
operation errors exactly when the transport call fails or no image part is
found. -/
theorem c7_response_extraction (c : Candidate) (cs : List Candidate)
    (ps : List RespPart) (t : Except String GenResponse) :
    (extractImageFromResponse { candidates := some (c :: cs) } =
      extractImageFromResponse { candidates := some [c] }) ∧
    (firstImagePart ps = (ps.find? isImagePart).map partPayload) ∧
    (extractImageFromResponse { candidates := none } = none) ∧
    (extractImageFromResponse { candidates := some [] } = none) ∧
    ((∃ e, generateImageWithGemini t = .error e) ↔
      ((∃ e, t = .error e) ∨
       ∃ r, t = .ok r ∧ extractImageFromResponse r = none)) := by
  have hfind : ∀ qs : List RespPart,
      firstImagePart qs = (qs.find? isImagePart).map partPayload := by
    intro qs
    induction qs with
    | nil => rfl
    | cons p rest ih =>
      obtain ⟨idata⟩ := p
      cases idata with
      | none => simpa [firstImagePart, isImagePart, List.find?] using ih
      | some d =>
        obtain ⟨dd, dm⟩ := d
        cases dd with
        | none => simpa [firstImagePart, isImagePart, List.find?] using ih
        | some sdata =>
          by_cases hs : sdata = ""
          · subst hs
            simpa [firstImagePart, isImagePart, List.find?] using ih
          · have hne : ¬sdata.isEmpty = true := by
              simp [String.isEmpty_iff, hs]
            simp [firstImagePart, isImagePart, List.find?, hs, hne, partPayload]
  have hiff : (∃ e, generateImageWithGemini t = .error e) ↔
      ((∃ e, t = .error e) ∨
       ∃ r, t = .ok r ∧ extractImageFromResponse r = none) := by
    cases t with
    | error e => simp [generateImageWithGemini]
    | ok r =>
      cases hx : extractImageFromResponse r with
      | none => simp [generateImageWithGemini, hx]
      | some u => simp [generateImageWithGemini, hx]
  exact ⟨rfl, hfind ps, rfl, rfl, hiff⟩
